import Mathlib

/-!
Verification of the validation-error aggregation, categorization and diffing
engine of `dandisets-linkml-status-tools`.

The Python source is shallowly embedded:

* a Python `dict` / `defaultdict` is an association list in which the first
  entry with a given key is the one an access sees (`keyFind`), and in which
  a newly created key is appended at the end (insertion order);
* a Python `collections.Counter` holding only positive counts (the only kind
  produced by `ValidationErrCounter`) is a `Multiset`: `Counter.update([e])`
  adds one occurrence, `Counter` subtraction is truncated multiset
  subtraction, and truthiness of a `Counter` is non-emptiness;
* the `defaultdict(Counter)` used by `ValidationErrCounter` auto-creates an
  empty entry when an absent key is accessed, so `__getitem__` returns both
  the looked-up multiset and the (possibly grown) new state.
-/

section AssocList

variable {κ α : Type}

/-- Python `dict` access: the first entry of the association list with the
given key, if any. -/
def keyFind [DecidableEq κ] : List (κ × α) → κ → Option α
  | [], _ => none
  | (k', a) :: t, k => if k = k' then some a else keyFind t k

/-- Python `defaultdict` mutation `d[k] = f(d[k])` with default `dflt`: the
first entry holding `k` is updated in place; an absent key is appended at the
end holding `f dflt`. -/
def keyUpdate [DecidableEq κ] (l : List (κ × α)) (k : κ) (f : α → α) (dflt : α) :
    List (κ × α) :=
  match l with
  | [] => [(k, f dflt)]
  | (k', a) :: t => if k = k' then (k', f a) :: t else (k', a) :: keyUpdate t k f dflt

theorem keyFind_append_of_some [DecidableEq κ] {l l' : List (κ × α)} {k : κ} {a : α}
    (h : keyFind l k = some a) : keyFind (l ++ l') k = some a := by
  induction l with
  | nil => simp [keyFind] at h
  | cons p t ih =>
    obtain ⟨k', b⟩ := p
    simp only [keyFind, List.cons_append] at h ⊢
    split at h
    · simp_all
    · simp only [*, if_false]
      exact ih h

theorem keyFind_append_of_none [DecidableEq κ] {l : List (κ × α)} {k : κ}
    (h : keyFind l k = none) (l' : List (κ × α)) :
    keyFind (l ++ l') k = keyFind l' k := by
  induction l with
  | nil => simp
  | cons p t ih =>
    obtain ⟨k', b⟩ := p
    simp only [keyFind, List.cons_append] at h ⊢
    split at h
    · exact absurd h (by simp)
    · simp only [*, if_false]
      exact ih h

theorem keyFind_eq_none_iff [DecidableEq κ] {l : List (κ × α)} {k : κ} :
    keyFind l k = none ↔ k ∉ l.map Prod.fst := by
  induction l with
  | nil => simp [keyFind]
  | cons p t ih =>
    obtain ⟨k', b⟩ := p
    simp only [keyFind, List.map_cons, List.mem_cons]
    split
    · simp [*]
    · simp [*]

theorem keyFind_keyUpdate [DecidableEq κ] (l : List (κ × α)) (k k' : κ) (f : α → α)
    (dflt : α) :
    keyFind (keyUpdate l k f dflt) k' =
      if k' = k then some (f ((keyFind l k).getD dflt)) else keyFind l k' := by
  induction l with
  | nil => by_cases h : k' = k <;> simp [keyFind, keyUpdate, h]
  | cons p t ih =>
    obtain ⟨k₀, a⟩ := p
    by_cases hk : k = k₀
    · subst hk
      by_cases hk' : k' = k <;> simp [keyFind, keyUpdate, hk']
    · by_cases hk' : k' = k₀
      · subst hk'
        simp [keyFind, keyUpdate, hk, Ne.symm hk]
      · simp [keyFind, keyUpdate, hk, hk', ih]

theorem keyFind_eq_some_mem [DecidableEq κ] {l : List (κ × α)} {k : κ} {a : α}
    (h : keyFind l k = some a) : (k, a) ∈ l := by
  induction l with
  | nil => simp [keyFind] at h
  | cons p t ih =>
    obtain ⟨k', b⟩ := p
    simp only [keyFind] at h
    split at h
    · obtain rfl := Option.some.inj h
      simp_all
    · exact List.mem_cons_of_mem _ (ih h)

end AssocList

section Counter

variable {ε κ : Type}

/-- The Python class `ValidationErrCounter`: the injected categorizer together
with the `defaultdict` mapping each category to the `Counter` (multiset) of
errors counted in it. -/
structure ValidationErrCounter (ε κ : Type) where
  err_categorizer : ε → κ
  err_ctrs_by_cat : List (κ × Multiset ε)

/-- `ValidationErrCounter.__init__`: the mapping starts empty. -/
def ValidationErrCounter.init (f : ε → κ) : ValidationErrCounter ε κ :=
  ⟨f, []⟩

/-- One iteration of the loop in `ValidationErrCounter.count`: categorize the
error and count it in the category's `Counter`
(`self._err_ctrs_by_cat[cat].update([err])`). -/
def ValidationErrCounter.countOne [DecidableEq κ] (c : ValidationErrCounter ε κ)
    (err : ε) : ValidationErrCounter ε κ :=
  { c with
    err_ctrs_by_cat :=
      keyUpdate c.err_ctrs_by_cat (c.err_categorizer err) (fun m => m + {err}) 0 }

/-- `ValidationErrCounter.count`: count every error of the iterable. -/
def ValidationErrCounter.count [DecidableEq κ] (c : ValidationErrCounter ε κ)
    (errs : List ε) : ValidationErrCounter ε κ :=
  errs.foldl ValidationErrCounter.countOne c

/-- The `counts_by_cat` property: each category paired with the total of its
`Counter` (`ctr.total()` is the multiset's cardinality). -/
def ValidationErrCounter.counts_by_cat (c : ValidationErrCounter ε κ) :
    List (κ × Nat) :=
  c.err_ctrs_by_cat.map (fun p => (p.1, Multiset.card p.2))

/-- The key list of the internal mapping (the iteration order of
`self._err_ctrs_by_cat.keys()`). -/
def ValidationErrCounter.keysList (c : ValidationErrCounter ε κ) : List κ :=
  c.err_ctrs_by_cat.map Prod.fst

/-- `ValidationErrCounter.cats`: the set of categories, as a deduplicated
list. -/
def ValidationErrCounter.cats (c : ValidationErrCounter ε κ) [DecidableEq κ] :
    List κ :=
  c.keysList.dedup

/-- `ValidationErrCounter.__getitem__`: `self._err_ctrs_by_cat[cat].copy()`.
Because the mapping is a `defaultdict(Counter)`, indexing an absent category
appends an empty entry for it; a copy of the (possibly fresh) `Counter` is
returned, so the result is the multiset together with the new counter
state. -/
def ValidationErrCounter.getItem [DecidableEq κ] (c : ValidationErrCounter ε κ)
    (cat : κ) : Multiset ε × ValidationErrCounter ε κ :=
  match keyFind c.err_ctrs_by_cat cat with
  | some m => (m, c)
  | none => (0, { c with err_ctrs_by_cat := c.err_ctrs_by_cat ++ [(cat, 0)] })

/-- `ValidationErrCounter.items`: every category paired with (a copy of) its
multiset of errors. -/
def ValidationErrCounter.items (c : ValidationErrCounter ε κ) :
    List (κ × Multiset ε) :=
  c.err_ctrs_by_cat

/-- The multiset an access of the internal mapping at `cat` observes: the
stored `Counter` if the key is present, the empty multiset otherwise. -/
def ValidationErrCounter.valueAt [DecidableEq κ] (c : ValidationErrCounter ε κ)
    (cat : κ) : Multiset ε :=
  (keyFind c.err_ctrs_by_cat cat).getD 0

/-- The category universe of `validation_err_diff`:
`c1.cats().union(c2.cats())`, as a deduplicated list. -/
def catsUnion [DecidableEq κ] (c1 c2 : ValidationErrCounter ε κ) : List κ :=
  (c1.keysList ++ c2.keysList).dedup

/-- The body of the loop in `validation_err_diff`: compute
`removed = c1[cat] - c2[cat]` and `gained = c2[cat] - c1[cat]` (truncated
`Counter` subtraction) and keep the pair whenever `removed` or `gained` is
non-empty (`Counter` truthiness).  Indexing each counter threads its possibly
grown `defaultdict` state. -/
def diffStep [DecidableEq ε] [DecidableEq κ]
    (acc : List (κ × Multiset ε × Multiset ε) ×
      ValidationErrCounter ε κ × ValidationErrCounter ε κ) (cat : κ) :
    List (κ × Multiset ε × Multiset ε) ×
      ValidationErrCounter ε κ × ValidationErrCounter ε κ :=
  let p1 := acc.2.1.getItem cat
  let p2 := acc.2.2.getItem cat
  let removed := p1.1 - p2.1
  let gained := p2.1 - p1.1
  if removed ≠ 0 ∨ gained ≠ 0 then
    (acc.1 ++ [(cat, removed, gained)], p1.2, p2.2)
  else
    (acc.1, p1.2, p2.2)

/-- The function `validation_err_diff`: iterate over the category universe
`c1.cats().union(c2.cats())` accumulating the per-category diff entries.
Since indexing a counter can grow its `defaultdict`, the two final counter
states are returned alongside the diff mapping. -/
def validation_err_diff [DecidableEq ε] [DecidableEq κ]
    (c1 c2 : ValidationErrCounter ε κ) :
    List (κ × Multiset ε × Multiset ε) ×
      ValidationErrCounter ε κ × ValidationErrCounter ε κ :=
  (catsUnion c1 c2).foldl diffStep ([], c1, c2)

end Counter

section CounterLemmas

variable {ε κ : Type}

theorem getItem_fst [DecidableEq κ] (c : ValidationErrCounter ε κ) (cat : κ) :
    (c.getItem cat).1 = c.valueAt cat := by
  unfold ValidationErrCounter.getItem ValidationErrCounter.valueAt
  cases h : keyFind c.err_ctrs_by_cat cat <;> simp [h]

theorem getItem_categorizer [DecidableEq κ] (c : ValidationErrCounter ε κ) (cat : κ) :
    (c.getItem cat).2.err_categorizer = c.err_categorizer := by
  unfold ValidationErrCounter.getItem
  cases h : keyFind c.err_ctrs_by_cat cat <;> simp [h]

theorem getItem_state_of_some [DecidableEq κ] {c : ValidationErrCounter ε κ}
    {cat : κ} {m : Multiset ε} (h : keyFind c.err_ctrs_by_cat cat = some m) :
    (c.getItem cat).2 = c := by
  unfold ValidationErrCounter.getItem
  rw [h]

theorem getItem_keyFind_of_none [DecidableEq κ] {c : ValidationErrCounter ε κ}
    {cat : κ} (h : keyFind c.err_ctrs_by_cat cat = none) (k : κ) :
    keyFind (c.getItem cat).2.err_ctrs_by_cat k =
      if k = cat then some 0 else keyFind c.err_ctrs_by_cat k := by
  unfold ValidationErrCounter.getItem
  rw [h]
  by_cases hk : k = cat
  · subst hk
    simp [keyFind_append_of_none h, keyFind]
  · simp only [hk, if_false]
    cases h2 : keyFind c.err_ctrs_by_cat k with
    | some a => exact keyFind_append_of_some h2
    | none =>
      rw [keyFind_append_of_none h2]
      simp [keyFind, hk]

theorem getItem_valueAt [DecidableEq κ] (c : ValidationErrCounter ε κ) (cat k : κ) :
    (c.getItem cat).2.valueAt k = c.valueAt k := by
  cases h : keyFind c.err_ctrs_by_cat cat with
  | some m => rw [getItem_state_of_some h]
  | none =>
    unfold ValidationErrCounter.valueAt
    rw [getItem_keyFind_of_none h]
    by_cases hk : k = cat
    · subst hk
      simp [h]
    · simp [hk]

theorem mem_keysList_iff [DecidableEq κ] (c : ValidationErrCounter ε κ) (k : κ) :
    k ∈ c.keysList ↔ keyFind c.err_ctrs_by_cat k ≠ none := by
  rw [ne_eq, keyFind_eq_none_iff, not_not]
  rfl

theorem countOne_categorizer [DecidableEq κ] (c : ValidationErrCounter ε κ) (e : ε) :
    (c.countOne e).err_categorizer = c.err_categorizer :=
  rfl

theorem count_categorizer [DecidableEq κ] (c : ValidationErrCounter ε κ)
    (errs : List ε) : (c.count errs).err_categorizer = c.err_categorizer := by
  induction errs generalizing c with
  | nil => rfl
  | cons e t ih => exact ih (c.countOne e)

/-- The multiset of the errors of `errs` that the categorizer `f` places in
category `cat`: what one `count` call adds at `cat`. -/
def errsIn [DecidableEq κ] (f : ε → κ) (errs : List ε) (cat : κ) : Multiset ε :=
  (errs.filter (fun e => decide (f e = cat)) : List ε)

theorem errsIn_nil [DecidableEq κ] (f : ε → κ) (cat : κ) : errsIn f [] cat = 0 :=
  rfl

theorem errsIn_cons [DecidableEq κ] (f : ε → κ) (e : ε) (t : List ε) (cat : κ) :
    errsIn f (e :: t) cat =
      (if f e = cat then {e} else 0) + errsIn f t cat := by
  by_cases h : f e = cat <;>
    simp [errsIn, h, Multiset.singleton_add, List.filter_cons]

theorem countOne_valueAt [DecidableEq κ] (c : ValidationErrCounter ε κ) (e : ε)
    (k : κ) :
    (c.countOne e).valueAt k =
      c.valueAt k + (if c.err_categorizer e = k then {e} else 0) := by
  unfold ValidationErrCounter.countOne ValidationErrCounter.valueAt
  simp only [keyFind_keyUpdate]
  by_cases h : c.err_categorizer e = k
  · simp [h]
  · rw [if_neg (Ne.symm h), if_neg h, add_zero]

theorem count_valueAt [DecidableEq κ] (c : ValidationErrCounter ε κ)
    (errs : List ε) (k : κ) :
    (c.count errs).valueAt k = c.valueAt k + errsIn c.err_categorizer errs k := by
  induction errs generalizing c with
  | nil => simp [ValidationErrCounter.count, errsIn_nil]
  | cons e t ih =>
    have step : c.count (e :: t) = (c.countOne e).count t := rfl
    rw [step, ih, countOne_categorizer, countOne_valueAt, errsIn_cons, add_assoc]

theorem keyUpdate_keys_mem [DecidableEq κ] {α : Type} (l : List (κ × α)) (k k' : κ)
    (f : α → α) (dflt : α) :
    k' ∈ (keyUpdate l k f dflt).map Prod.fst ↔ k' ∈ l.map Prod.fst ∨ k' = k := by
  induction l with
  | nil => simp [keyUpdate]
  | cons p t ih =>
    obtain ⟨k₀, a⟩ := p
    by_cases h : k = k₀
    · subst h
      rw [show keyUpdate ((k, a) :: t) k f dflt = (k, f a) :: t from by
        simp [keyUpdate]]
      simp only [List.map_cons, List.mem_cons]
      tauto
    · rw [show keyUpdate ((k₀, a) :: t) k f dflt = (k₀, a) :: keyUpdate t k f dflt
        from by simp [keyUpdate, h]]
      simp only [List.map_cons, List.mem_cons, ih]
      tauto

theorem countOne_keys_mem [DecidableEq κ] (c : ValidationErrCounter ε κ) (e : ε)
    (k : κ) :
    k ∈ (c.countOne e).keysList ↔ k ∈ c.keysList ∨ c.err_categorizer e = k := by
  unfold ValidationErrCounter.countOne ValidationErrCounter.keysList
  rw [keyUpdate_keys_mem]
  exact or_congr_right eq_comm

theorem count_keys_mem [DecidableEq κ] (c : ValidationErrCounter ε κ)
    (errs : List ε) (k : κ) :
    k ∈ (c.count errs).keysList ↔
      k ∈ c.keysList ∨ ∃ e ∈ errs, c.err_categorizer e = k := by
  induction errs generalizing c with
  | nil => simp [ValidationErrCounter.count]
  | cons e t ih =>
    have step : c.count (e :: t) = (c.countOne e).count t := rfl
    rw [step, ih, countOne_categorizer, countOne_keys_mem]
    simp only [List.mem_cons]
    constructor
    · rintro ((h | h) | ⟨e', he', h⟩)
      · exact Or.inl h
      · exact Or.inr ⟨e, Or.inl rfl, h⟩
      · exact Or.inr ⟨e', Or.inr he', h⟩
    · rintro (h | ⟨e', (rfl | he'), h⟩)
      · exact Or.inl (Or.inl h)
      · exact Or.inl (Or.inr h)
      · exact Or.inr ⟨e', he', h⟩

theorem getItem_keys_mem [DecidableEq κ] (c : ValidationErrCounter ε κ) (cat k : κ) :
    k ∈ (c.getItem cat).2.keysList ↔ k ∈ c.keysList ∨ k = cat := by
  unfold ValidationErrCounter.getItem
  cases h : keyFind c.err_ctrs_by_cat cat with
  | some m =>
    simp only
    constructor
    · exact Or.inl
    · rintro (hk | rfl)
      · exact hk
      · exact (mem_keysList_iff c k).mpr (by simp [h])
  | none =>
    simp [ValidationErrCounter.keysList]

end CounterLemmas

section DiffLemmas

variable {ε κ : Type}

/-- The sequence of `defaultdict` growths a counter undergoes when it is
indexed at each category of `cats` in turn. -/
def vivifyAll [DecidableEq κ] (c : ValidationErrCounter ε κ) (cats : List κ) :
    ValidationErrCounter ε κ :=
  cats.foldl (fun s cat => (s.getItem cat).2) c

theorem vivifyAll_nil [DecidableEq κ] (c : ValidationErrCounter ε κ) :
    vivifyAll c [] = c :=
  rfl

theorem vivifyAll_cons [DecidableEq κ] (c : ValidationErrCounter ε κ) (cat : κ)
    (t : List κ) : vivifyAll c (cat :: t) = vivifyAll (c.getItem cat).2 t :=
  rfl

theorem vivifyAll_valueAt [DecidableEq κ] (c : ValidationErrCounter ε κ)
    (cats : List κ) (k : κ) : (vivifyAll c cats).valueAt k = c.valueAt k := by
  induction cats generalizing c with
  | nil => rfl
  | cons cat t ih => rw [vivifyAll_cons, ih, getItem_valueAt]

theorem vivifyAll_keyFind_of_some [DecidableEq κ] {c : ValidationErrCounter ε κ}
    {k : κ} {m : Multiset ε} (cats : List κ)
    (h : keyFind c.err_ctrs_by_cat k = some m) :
    keyFind (vivifyAll c cats).err_ctrs_by_cat k = some m := by
  induction cats generalizing c with
  | nil => exact h
  | cons cat t ih =>
    rw [vivifyAll_cons]
    cases hc : keyFind c.err_ctrs_by_cat cat with
    | some m' =>
      rw [getItem_state_of_some hc]
      exact ih h
    | none =>
      apply ih
      rw [getItem_keyFind_of_none hc k]
      have : ¬k = cat := fun hk => by
        subst hk
        rw [h] at hc
        exact Option.noConfusion hc
      rw [if_neg this]
      exact h

theorem vivifyAll_keyFind_of_none_mem [DecidableEq κ] {c : ValidationErrCounter ε κ}
    {k : κ} {cats : List κ} (h : keyFind c.err_ctrs_by_cat k = none)
    (hmem : k ∈ cats) :
    keyFind (vivifyAll c cats).err_ctrs_by_cat k = some 0 := by
  induction cats generalizing c with
  | nil => exact absurd hmem (List.not_mem_nil k)
  | cons cat t ih =>
    rw [vivifyAll_cons]
    by_cases hk : k = cat
    · subst hk
      have h0 : keyFind (c.getItem k).2.err_ctrs_by_cat k = some 0 := by
        rw [getItem_keyFind_of_none h k, if_pos rfl]
      exact vivifyAll_keyFind_of_some t h0
    · have hmem' : k ∈ t := by
        rcases List.mem_cons.mp hmem with h' | h'
        · exact absurd h' hk
        · exact h'
      cases hc : keyFind c.err_ctrs_by_cat cat with
      | some m' =>
        rw [getItem_state_of_some hc]
        exact ih h hmem'
      | none =>
        apply ih _ hmem'
        rw [getItem_keyFind_of_none hc k, if_neg hk]
        exact h

theorem vivifyAll_keys_mem [DecidableEq κ] (c : ValidationErrCounter ε κ)
    (cats : List κ) (k : κ) :
    k ∈ (vivifyAll c cats).keysList ↔ k ∈ c.keysList ∨ k ∈ cats := by
  induction cats generalizing c with
  | nil => simp [vivifyAll_nil]
  | cons cat t ih =>
    rw [vivifyAll_cons, ih, getItem_keys_mem]
    simp only [List.mem_cons]
    tauto

theorem keyFind_map_snd [DecidableEq κ] {α β : Type} (l : List (κ × α)) (g : α → β)
    (k : κ) :
    keyFind (l.map (fun p => (p.1, g p.2))) k = (keyFind l k).map g := by
  induction l with
  | nil => simp [keyFind]
  | cons p t ih =>
    obtain ⟨k', a⟩ := p
    by_cases h : k = k' <;> simp [keyFind, h, ih]

theorem counts_by_cat_keyFind [DecidableEq κ] (c : ValidationErrCounter ε κ)
    (k : κ) :
    keyFind c.counts_by_cat k =
      (keyFind c.err_ctrs_by_cat k).map Multiset.card := by
  unfold ValidationErrCounter.counts_by_cat
  exact keyFind_map_snd c.err_ctrs_by_cat Multiset.card k

/-- The diff entry `validation_err_diff` produces for one category:
`(removed, gained)` when one of them is non-empty, nothing otherwise. -/
def diffEntry [DecidableEq ε] [DecidableEq κ] (c1 c2 : ValidationErrCounter ε κ)
    (cat : κ) : Option (Multiset ε × Multiset ε) :=
  if c1.valueAt cat - c2.valueAt cat ≠ 0 ∨ c2.valueAt cat - c1.valueAt cat ≠ 0 then
    some (c1.valueAt cat - c2.valueAt cat, c2.valueAt cat - c1.valueAt cat)
  else none

theorem diffStep_eq [DecidableEq ε] [DecidableEq κ]
    (acc : List (κ × Multiset ε × Multiset ε) ×
      ValidationErrCounter ε κ × ValidationErrCounter ε κ) (cat : κ) :
    diffStep acc cat =
      ((match diffEntry acc.2.1 acc.2.2 cat with
        | some v => acc.1 ++ [(cat, v)]
        | none => acc.1),
       (acc.2.1.getItem cat).2, (acc.2.2.getItem cat).2) := by
  unfold diffStep diffEntry
  simp only [getItem_fst]
  split
  · rfl
  · rfl

theorem foldl_diffStep [DecidableEq ε] [DecidableEq κ]
    (c1 c2 : ValidationErrCounter ε κ) (cats : List κ) :
    ∀ (a : List (κ × Multiset ε × Multiset ε))
      (s1 s2 : ValidationErrCounter ε κ),
      (∀ k, s1.valueAt k = c1.valueAt k) → (∀ k, s2.valueAt k = c2.valueAt k) →
      cats.foldl diffStep (a, s1, s2) =
        (a ++ cats.filterMap
            (fun cat => (diffEntry c1 c2 cat).map (fun v => (cat, v))),
         vivifyAll s1 cats, vivifyAll s2 cats) := by
  induction cats with
  | nil => intro a s1 s2 _ _; simp [vivifyAll_nil]
  | cons cat t ih =>
    intro a s1 s2 h1 h2
    have hde : diffEntry s1 s2 cat = diffEntry c1 c2 cat := by
      unfold diffEntry
      rw [h1 cat, h2 cat]
    have hstep : diffStep (a, s1, s2) cat =
        ((match diffEntry c1 c2 cat with
          | some v => a ++ [(cat, v)]
          | none => a),
         (s1.getItem cat).2, (s2.getItem cat).2) := by
      rw [diffStep_eq, hde]
    rw [List.foldl_cons, hstep,
      ih _ _ _ (fun k => by rw [getItem_valueAt, h1 k])
        (fun k => by rw [getItem_valueAt, h2 k]),
      vivifyAll_cons, vivifyAll_cons]
    cases hd : diffEntry c1 c2 cat with
    | some v => simp [hd]
    | none => simp [hd]

theorem validation_err_diff_eq [DecidableEq ε] [DecidableEq κ]
    (c1 c2 : ValidationErrCounter ε κ) :
    validation_err_diff c1 c2 =
      ((catsUnion c1 c2).filterMap
          (fun cat => (diffEntry c1 c2 cat).map (fun v => (cat, v))),
       vivifyAll c1 (catsUnion c1 c2), vivifyAll c2 (catsUnion c1 c2)) := by
  unfold validation_err_diff
  rw [foldl_diffStep c1 c2 (catsUnion c1 c2) [] c1 c2 (fun _ => rfl) (fun _ => rfl)]
  simp

theorem keyFind_of_filterMap [DecidableEq κ] {α : Type} (g : κ → Option α)
    (l : List κ) (k : κ) :
    keyFind (l.filterMap (fun c => (g c).map (fun v => (c, v)))) k =
      if k ∈ l then g k else none := by
  induction l with
  | nil => simp [keyFind]
  | cons c t ih =>
    cases hgc : g c with
    | none =>
      rw [List.filterMap_cons]
      simp only [hgc, Option.map_none']
      rw [ih]
      by_cases hk : k = c
      · subst hk
        simp [hgc]
      · simp [hk]
    | some v =>
      rw [List.filterMap_cons]
      simp only [hgc, Option.map_some']
      by_cases hk : k = c
      · subst hk
        simp [keyFind, hgc]
      · simp [keyFind, hk, ih]

theorem multiset_sub_both_zero_iff [DecidableEq ε] (m n : Multiset ε) :
    (m - n = 0 ∧ n - m = 0) ↔ m = n := by
  constructor
  · rintro ⟨h1, h2⟩
    exact le_antisymm (tsub_eq_zero_iff_le.mp h1) (tsub_eq_zero_iff_le.mp h2)
  · rintro rfl
    simp

theorem diffEntry_eq_none_iff [DecidableEq ε] [DecidableEq κ]
    (c1 c2 : ValidationErrCounter ε κ) (cat : κ) :
    diffEntry c1 c2 cat = none ↔ c1.valueAt cat = c2.valueAt cat := by
  unfold diffEntry
  split
  · rename_i h
    constructor
    · intro he
      exact Option.noConfusion he
    · intro he
      rw [← multiset_sub_both_zero_iff (c1.valueAt cat) (c2.valueAt cat)] at he
      rcases h with h | h
      · exact absurd he.1 h
      · exact absurd he.2 h
  · rename_i h
    rw [not_or, not_not, not_not] at h
    simp only [true_iff]
    exact (multiset_sub_both_zero_iff _ _).mp ⟨h.1, h.2⟩

theorem not_mem_catsUnion_valueAt [DecidableEq κ] {c1 c2 : ValidationErrCounter ε κ}
    {cat : κ} (h : cat ∉ catsUnion c1 c2) :
    c1.valueAt cat = 0 ∧ c2.valueAt cat = 0 := by
  unfold catsUnion at h
  rw [List.mem_dedup, List.mem_append] at h
  push_neg at h
  constructor
  · unfold ValidationErrCounter.valueAt
    rw [keyFind_eq_none_iff.mpr h.1]
    rfl
  · unfold ValidationErrCounter.valueAt
    rw [keyFind_eq_none_iff.mpr h.2]
    rfl

end DiffLemmas

section DiffCharacterization

variable {ε κ : Type}

theorem diffEntry_eq_ite [DecidableEq ε] [DecidableEq κ]
    (c1 c2 : ValidationErrCounter ε κ) (cat : κ) :
    diffEntry c1 c2 cat =
      if c1.valueAt cat = c2.valueAt cat then none
      else some (c1.valueAt cat - c2.valueAt cat,
        c2.valueAt cat - c1.valueAt cat) := by
  by_cases h : c1.valueAt cat = c2.valueAt cat
  · rw [if_pos h, ← diffEntry_eq_none_iff] at *
    exact h
  · rw [if_neg h]
    unfold diffEntry
    rw [if_pos]
    rw [← multiset_sub_both_zero_iff (c1.valueAt cat) (c2.valueAt cat)] at h
    exact not_and_or.mp h

theorem map_fst_filterMap [DecidableEq κ] {α : Type} (g : κ → Option α)
    (l : List κ) :
    (l.filterMap (fun c => (g c).map (fun v => (c, v)))).map Prod.fst =
      l.filter (fun c => (g c).isSome) := by
  induction l with
  | nil => rfl
  | cons c t ih =>
    rw [List.filterMap_cons, List.filter_cons]
    cases hgc : g c with
    | none => simp [hgc, ih]
    | some v => simp [hgc, ih]

/-- What the diff mapping holds at each category: the pair of floored
differences when the two observed multisets differ, nothing when they are
equal. -/
theorem validation_err_diff_keyFind [DecidableEq ε] [DecidableEq κ]
    (c1 c2 : ValidationErrCounter ε κ) (cat : κ) :
    keyFind (validation_err_diff c1 c2).1 cat =
      if c1.valueAt cat = c2.valueAt cat then none
      else some (c1.valueAt cat - c2.valueAt cat,
        c2.valueAt cat - c1.valueAt cat) := by
  rw [validation_err_diff_eq]
  simp only
  rw [keyFind_of_filterMap]
  by_cases hmem : cat ∈ catsUnion c1 c2
  · rw [if_pos hmem, diffEntry_eq_ite]
  · rw [if_neg hmem]
    obtain ⟨h1, h2⟩ := not_mem_catsUnion_valueAt hmem
    rw [if_pos (h1.trans h2.symm)]

end DiffCharacterization

/-- C1: for counters built with the same categorizer, `validation_err_diff`
returns a mapping that holds, at exactly the categories of
`c1.cats() ∪ c2.cats()` whose per-category multisets differ, the pair
`(removed, gained)` of zero-floored multiset differences
(`c1[cat] - c2[cat]`, `c2[cat] - c1[cat]`); a category is present iff
`removed` or `gained` is non-empty, i.e. iff the two multisets differ, and
categories with exactly equal multisets are absent. -/
theorem C1_validation_err_diff_correct {ε κ : Type} [DecidableEq ε]
    [DecidableEq κ] (c1 c2 : ValidationErrCounter ε κ) (cat : κ) :
    keyFind (validation_err_diff c1 c2).1 cat =
      (if c1.valueAt cat = c2.valueAt cat then none
       else some (c1.valueAt cat - c2.valueAt cat,
         c2.valueAt cat - c1.valueAt cat)) ∧
    (validation_err_diff c1 c2).1.map Prod.fst =
      (catsUnion c1 c2).filter (fun c => decide (¬c1.valueAt c = c2.valueAt c)) ∧
    ((c1.valueAt cat - c2.valueAt cat = 0 ∧ c2.valueAt cat - c1.valueAt cat = 0) ↔
      c1.valueAt cat = c2.valueAt cat) := by
  refine ⟨validation_err_diff_keyFind c1 c2 cat, ?_,
    multiset_sub_both_zero_iff _ _⟩
  rw [validation_err_diff_eq]
  simp only
  rw [map_fst_filterMap]
  apply List.filter_congr
  intro c _
  rw [diffEntry_eq_ite]
  by_cases h : c1.valueAt c = c2.valueAt c <;> simp [h]

section CounterOps

variable {ε κ : Type}

/-- A mutating operation on a `ValidationErrCounter`: a `count` call or an
indexing (`__getitem__` / `item_at`) query.  `counts_by_cat`, `cats` and
`items` read the state without changing it, and `validation_err_diff`
queries both of its counters at every category of the union, so every
operation sequence on a counter reduces to a list of these two. -/
inductive CounterOp (ε κ : Type) where
  | countOp (errs : List ε)
  | queryOp (cat : κ)

/-- Run a sequence of operations on a counter. -/
def runOps [DecidableEq κ] (c : ValidationErrCounter ε κ) :
    List (CounterOp ε κ) → ValidationErrCounter ε κ
  | [] => c
  | .countOp errs :: t => runOps (c.count errs) t
  | .queryOp cat :: t => runOps (c.getItem cat).2 t

/-- Whether one operation makes the category `cat` present: a `count` call
counting an error of that category, or any query at that category. -/
def opIntroduces (f : ε → κ) (cat : κ) : CounterOp ε κ → Prop
  | .countOp errs => ∃ e ∈ errs, f e = cat
  | .queryOp c => c = cat

theorem runOps_keys_mem [DecidableEq κ] (c : ValidationErrCounter ε κ)
    (ops : List (CounterOp ε κ)) (cat : κ) :
    cat ∈ (runOps c ops).keysList ↔
      cat ∈ c.keysList ∨ ∃ op ∈ ops, opIntroduces c.err_categorizer cat op := by
  induction ops generalizing c with
  | nil => simp [runOps]
  | cons op t ih =>
    cases op with
    | countOp errs =>
      rw [show runOps c (.countOp errs :: t) = runOps (c.count errs) t from rfl,
        ih, count_categorizer, count_keys_mem]
      simp only [List.exists_mem_cons_iff]
      rw [show opIntroduces c.err_categorizer cat (.countOp errs) =
        ∃ e ∈ errs, c.err_categorizer e = cat from rfl]
      exact or_assoc
    | queryOp q =>
      rw [show runOps c (.queryOp q :: t) = runOps (c.getItem q).2 t from rfl,
        ih, getItem_categorizer, getItem_keys_mem]
      simp only [List.exists_mem_cons_iff]
      rw [show opIntroduces c.err_categorizer cat (.queryOp q) = (q = cat)
        from rfl]
      constructor
      · rintro ((h | rfl) | h)
        · exact Or.inl h
        · exact Or.inr (Or.inl rfl)
        · exact Or.inr (Or.inr h)
      · rintro (h | (rfl | h))
        · exact Or.inl (Or.inl h)
        · exact Or.inl (Or.inr rfl)
        · exact Or.inr h

end CounterOps

/-- C2 counterexample: the claim states that a category never counted is
never present in the internal mapping (and hence in `counts_by_cat` with
value 0), even after the counter has been queried at an unknown category.
On the code this is false: querying the `defaultdict`-backed mapping at an
unknown category inserts it, so a fresh counter queried at `"c"` (with no
error ever counted) reports `"c"` among its keys and maps it to 0 in
`counts_by_cat`. -/
theorem C2_counterexample :
    "c" ∈ ((ValidationErrCounter.init (fun s : String => s)).getItem
        "c").2.keysList ∧
    keyFind ((ValidationErrCounter.init (fun s : String => s)).getItem
        "c").2.counts_by_cat "c" = some 0 := by
  constructor
  · decide
  · decide

/-- C2 (amended): a category key appears in the counter's internal mapping —
and hence in `cats()` and in `counts_by_cat` — if and only if at least one
error has been counted into that category or the counter has been indexed
(via `__getitem__` / `item_at`, directly or through `validation_err_diff`)
at that category; in particular a never-counted category becomes present,
with value 0 in `counts_by_cat`, once it is queried. -/
theorem C2_cats_iff_counted_or_queried {ε κ : Type} [DecidableEq κ]
    (f : ε → κ) (ops : List (CounterOp ε κ)) (cat : κ) :
    cat ∈ (runOps (ValidationErrCounter.init f) ops).keysList ↔
      ∃ op ∈ ops, opIntroduces f cat op := by
  rw [runOps_keys_mem]
  simp [ValidationErrCounter.init, ValidationErrCounter.keysList]

/-- C6: counting is additive across calls — invoking `count` twice with the
same error sequence on a fresh counter yields, for every category and every
distinct error, exactly double the occurrence count of a single invocation;
in particular counting the single error `("T", "m", ("a",))` in two separate
`count` calls (under a categorizer keeping the error itself) yields total 2
for its category in `counts_by_cat`. -/
theorem C6_count_additive {ε κ : Type} [DecidableEq ε] [DecidableEq κ]
    (f : ε → κ) :
    (∀ (errs : List ε) (cat : κ) (e : ε),
      Multiset.count e
          ((((ValidationErrCounter.init f).count errs).count errs).valueAt cat) =
        2 * Multiset.count e
          (((ValidationErrCounter.init f).count errs).valueAt cat)) ∧
    keyFind
        (((ValidationErrCounter.init
              (fun t : String × String × List String => t)).count
            [("T", "m", ["a"])]).count
          [("T", "m", ["a"])]).counts_by_cat ("T", "m", ["a"]) = some 2 := by
  constructor
  · intro errs cat e
    have h0 : (ValidationErrCounter.init f).valueAt cat = 0 := rfl
    rw [count_valueAt, count_valueAt, count_categorizer, h0, zero_add,
      Multiset.count_add, two_mul]
  · decide

/-- C7: indexing a counter at a category into which no error has ever been
counted returns the empty multiset; the access is total (the `defaultdict`
supplies an empty `Counter` instead of raising `KeyError`). -/
theorem C7_getitem_unknown_cat_empty {ε κ : Type} [DecidableEq ε]
    [DecidableEq κ] (f : ε → κ) (errs : List ε) (cat : κ)
    (h : ∀ e ∈ errs, f e ≠ cat) :
    (((ValidationErrCounter.init f).count errs).getItem cat).1 = 0 := by
  rw [getItem_fst, count_valueAt]
  have hf : errsIn f errs cat = 0 := by
    unfold errsIn
    rw [List.filter_eq_nil_iff.mpr (by intro e he; simpa using h e he)]
    rfl
  show (ValidationErrCounter.init f).valueAt cat + errsIn f errs cat = 0
  rw [hf]
  rfl

/-- C7 witness: a counter that counted only `"a"` (identity categorizer)
returns the empty multiset at the unknown category `"b"`. -/
theorem C7_witness :
    (∀ e ∈ ["a"], (fun s : String => s) e ≠ "b") ∧
    (((ValidationErrCounter.init (fun s : String => s)).count
        ["a"]).getItem "b").1 = 0 :=
  ⟨by decide, C7_getitem_unknown_cat_empty (fun s : String => s) ["a"] "b"
    (by decide)⟩

/-- C10: `validation_err_diff` is not read-only on its inputs — for every
category of `c1.cats() ∪ c2.cats()` that is absent from one of the two
counters, the diff's indexing of that counter inserts the category with an
empty multiset into its `defaultdict` mapping, so that counter's subsequent
key set contains the category and its `counts_by_cat` maps it to 0. -/
theorem C10_diff_vivifies_absent_cats {ε κ : Type} [DecidableEq ε]
    [DecidableEq κ] (c1 c2 : ValidationErrCounter ε κ) (cat : κ)
    (hmem : cat ∈ catsUnion c1 c2) :
    (keyFind c1.err_ctrs_by_cat cat = none →
      cat ∈ (validation_err_diff c1 c2).2.1.keysList ∧
      keyFind (validation_err_diff c1 c2).2.1.counts_by_cat cat = some 0) ∧
    (keyFind c2.err_ctrs_by_cat cat = none →
      cat ∈ (validation_err_diff c1 c2).2.2.keysList ∧
      keyFind (validation_err_diff c1 c2).2.2.counts_by_cat cat = some 0) := by
  rw [validation_err_diff_eq]
  constructor
  · intro h1
    have hk : keyFind (vivifyAll c1 (catsUnion c1 c2)).err_ctrs_by_cat cat =
        some 0 := vivifyAll_keyFind_of_none_mem h1 hmem
    constructor
    · rw [mem_keysList_iff, hk]
      exact Option.noConfusion
    · rw [counts_by_cat_keyFind, hk]
      rfl
  · intro h2
    have hk : keyFind (vivifyAll c2 (catsUnion c1 c2)).err_ctrs_by_cat cat =
        some 0 := vivifyAll_keyFind_of_none_mem h2 hmem
    constructor
    · rw [mem_keysList_iff, hk]
      exact Option.noConfusion
    · rw [counts_by_cat_keyFind, hk]
      rfl

/-- C10 witness: diffing a counter that counted `"a"` against a fresh empty
counter inserts category `"a"` into the empty counter, which afterwards
reports it with count 0. -/
theorem C10_witness :
    ("a" ∈ catsUnion ((ValidationErrCounter.init (fun s : String => s)).count
          ["a"]) (ValidationErrCounter.init (fun s : String => s)) ∧
      keyFind (ValidationErrCounter.init
          (fun s : String => s)).err_ctrs_by_cat "a" = none) ∧
    ("a" ∈ (validation_err_diff
          ((ValidationErrCounter.init (fun s : String => s)).count ["a"])
          (ValidationErrCounter.init (fun s : String => s))).2.2.keysList ∧
      keyFind (validation_err_diff
          ((ValidationErrCounter.init (fun s : String => s)).count ["a"])
          (ValidationErrCounter.init
            (fun s : String => s))).2.2.counts_by_cat "a" = some 0) :=
  ⟨⟨by decide, by decide⟩,
    (C10_diff_vivifies_absent_cats
        ((ValidationErrCounter.init (fun s : String => s)).count ["a"])
        (ValidationErrCounter.init (fun s : String => s)) "a"
        (by decide)).2 (by decide)⟩

section PydanticCategorizer

/-- The tuple representation of a normalized Pydantic validation error built
by `pydantic_err_rep`: the error's `type`, `msg` and `loc` fields and the
path of the data instance (a `Path` is its list of parts).  A `loc` element
is a field name (`Sum.inl`) or an array index, a Python `int`
(`Sum.inr`). -/
structure PydanticErrRep where
  type : String
  msg : String
  loc : List (String ⊕ Int)
  path : List String
deriving DecidableEq

/-- The inline generator of `pydantic_err_categorizer`:
`tuple("[*]" if isinstance(v, int) else v for v in err[2])` — every integer
element of the location is replaced by the wildcard token `"[*]"`. -/
def generalize_loc (loc : List (String ⊕ Int)) : List String :=
  loc.map (fun v =>
    match v with
    | Sum.inl s => s
    | Sum.inr _ => "[*]")

/-- The function `pydantic_err_categorizer`: keep the error's type and
message, generalize the location, and drop the path component. -/
def pydantic_err_categorizer (err : PydanticErrRep) :
    String × String × List String :=
  (err.type, err.msg, generalize_loc err.loc)

end PydanticCategorizer

/-- C3: two normalized Pydantic error tuples with the same type, the same
message, and locations that agree after replacing every integer element with
`"[*]"` are mapped by `pydantic_err_categorizer` to the same category,
whatever their path components; the category is exactly
`(type, msg, generalized loc)` with the path dropped. -/
theorem C3_pydantic_err_categorizer_cat (e1 e2 : PydanticErrRep)
    (ht : e1.type = e2.type) (hm : e1.msg = e2.msg)
    (hl : generalize_loc e1.loc = generalize_loc e2.loc) :
    pydantic_err_categorizer e1 = pydantic_err_categorizer e2 ∧
    pydantic_err_categorizer e1 = (e1.type, e1.msg, generalize_loc e1.loc) := by
  constructor
  · unfold pydantic_err_categorizer
    rw [ht, hm, hl]
  · rfl

/-- C3 witness: two errors at different array indices of the same field path,
coming from different documents, share the category
`("T", "m", ("contributor", "[*]", "name"))`. -/
theorem C3_witness :
    ((PydanticErrRep.mk "T" "m"
          [Sum.inl "contributor", Sum.inr 2, Sum.inl "name"]
          ["000001", "draft"]).type =
        (PydanticErrRep.mk "T" "m"
          [Sum.inl "contributor", Sum.inr 5, Sum.inl "name"]
          ["000097", "0.1.2"]).type ∧
      (PydanticErrRep.mk "T" "m"
          [Sum.inl "contributor", Sum.inr 2, Sum.inl "name"]
          ["000001", "draft"]).msg =
        (PydanticErrRep.mk "T" "m"
          [Sum.inl "contributor", Sum.inr 5, Sum.inl "name"]
          ["000097", "0.1.2"]).msg ∧
      generalize_loc (PydanticErrRep.mk "T" "m"
          [Sum.inl "contributor", Sum.inr 2, Sum.inl "name"]
          ["000001", "draft"]).loc =
        generalize_loc (PydanticErrRep.mk "T" "m"
          [Sum.inl "contributor", Sum.inr 5, Sum.inl "name"]
          ["000097", "0.1.2"]).loc) ∧
    pydantic_err_categorizer (PydanticErrRep.mk "T" "m"
        [Sum.inl "contributor", Sum.inr 2, Sum.inl "name"]
        ["000001", "draft"]) =
      pydantic_err_categorizer (PydanticErrRep.mk "T" "m"
        [Sum.inl "contributor", Sum.inr 5, Sum.inl "name"]
        ["000097", "0.1.2"]) :=
  ⟨⟨by decide, by decide, by decide⟩,
    (C3_pydantic_err_categorizer_cat
      (PydanticErrRep.mk "T" "m"
        [Sum.inl "contributor", Sum.inr 2, Sum.inl "name"]
        ["000001", "draft"])
      (PydanticErrRep.mk "T" "m"
        [Sum.inl "contributor", Sum.inr 5, Sum.inl "name"]
        ["000097", "0.1.2"])
      (by decide) (by decide) (by decide)).1⟩

section PythonValues

mutual

/-- A fragment of Python runtime values large enough for the
`validator_value` field of `JsonschemaValidationErrorType` (schema constraint
values are JSON-like: strings, numbers, booleans, `None`, and `list` /
`tuple` sequences). -/
inductive PyVal where
  | pyNone
  | pyBool (b : Bool)
  | pyInt (n : Int)
  | pyStr (s : String)
  | pyList (xs : PyValList)
  | pyTuple (xs : PyValList)

inductive PyValList where
  | nil
  | cons (x : PyVal) (xs : PyValList)

end

/-- The name of the Python runtime type of a value — `type(v) is type(w)`
holds exactly when the two names agree, since distinct types have distinct
names. -/
def typeName : PyVal → String
  | .pyNone => "NoneType"
  | .pyBool _ => "bool"
  | .pyInt _ => "int"
  | .pyStr _ => "str"
  | .pyList _ => "list"
  | .pyTuple _ => "tuple"

mutual

/-- Python `==` on the modelled values: numeric cross-type equality holds
(`True == 1`), sequences compare elementwise within the same type, and a
`list` never equals a `tuple`. -/
def pyEq : PyVal → PyVal → Bool
  | .pyNone, .pyNone => true
  | .pyBool a, .pyBool b => a == b
  | .pyBool a, .pyInt n => (if a then (1 : Int) else 0) == n
  | .pyInt n, .pyBool b => n == (if b then (1 : Int) else 0)
  | .pyInt a, .pyInt b => a == b
  | .pyStr a, .pyStr b => a == b
  | .pyList xs, .pyList ys => pyEqList xs ys
  | .pyTuple xs, .pyTuple ys => pyEqList xs ys
  | _, _ => false

/-- Python `==` on sequences of values, elementwise. -/
def pyEqList : PyValList → PyValList → Bool
  | .nil, .nil => true
  | .cons x xs, .cons y ys => pyEq x y && pyEqList xs ys
  | _, _ => false

end

/-- The named tuple `JsonschemaValidationErrorType`: a `validator` name and
the violated constraint's `validator_value`. -/
structure JsonschemaValidationErrorType where
  validator : String
  validator_value : PyVal

/-- `JsonschemaValidationErrorType.__eq__`: equal validator strings, equal
runtime types of the `validator_value` fields
(`type(self.validator_value) is type(other.validator_value)`), and equal
values. -/
def JsonschemaValidationErrorType.eq (a b : JsonschemaValidationErrorType) :
    Bool :=
  a.validator == b.validator
    && typeName a.validator_value == typeName b.validator_value
    && pyEq a.validator_value b.validator_value

end PythonValues

/-- C4: two `JsonschemaValidationErrorType` instances are equal iff their
validator strings are equal, their `validator_value` fields have the same
runtime type, and the values are equal; consequently an instance holding a
list and one holding a tuple with the same elements are never equal. -/
theorem C4_jsonschema_validation_error_type_eq
    (a b : JsonschemaValidationErrorType) :
    (JsonschemaValidationErrorType.eq a b = true ↔
      (a.validator = b.validator ∧
        typeName a.validator_value = typeName b.validator_value ∧
        pyEq a.validator_value b.validator_value = true)) ∧
    (∀ (v : String) (xs : PyValList),
      JsonschemaValidationErrorType.eq ⟨v, .pyList xs⟩ ⟨v, .pyTuple xs⟩ =
        false) := by
  constructor
  · unfold JsonschemaValidationErrorType.eq
    rw [Bool.and_assoc, Bool.and_eq_true, Bool.and_eq_true]
    simp
  · intro v xs
    unfold JsonschemaValidationErrorType.eq
    have hlt : ((typeName (.pyList xs) : String) == typeName (.pyTuple xs)) =
        false := by
      simp [typeName]
    rw [hlt]
    simp

section HeapModel

variable {ε κ : Type}

/-- A heap of Python `Counter` objects: cell `r` holds the multiset contents
of the `Counter` object at reference `r`.  Caller-side mutation of a
returned `Counter` is a write at its reference, so copy isolation
(`.copy()` in `__getitem__` and `items`) is expressible. -/
structure PyHeap (ε : Type) where
  cells : List (Multiset ε)

/-- Contents of the `Counter` at reference `r`. -/
def PyHeap.read (h : PyHeap ε) (r : Nat) : Multiset ε :=
  h.cells.getD r 0

/-- In-place mutation of the `Counter` at reference `r`. -/
def PyHeap.write (h : PyHeap ε) (r : Nat) (m : Multiset ε) : PyHeap ε :=
  ⟨h.cells.set r m⟩

/-- Allocation of a new `Counter` object with contents `m`. -/
def PyHeap.alloc (h : PyHeap ε) (m : Multiset ε) : Nat × PyHeap ε :=
  (h.cells.length, ⟨h.cells ++ [m]⟩)

/-- The reference-level view of `ValidationErrCounter._err_ctrs_by_cat`:
each category maps to the reference of the `Counter` object it owns. -/
structure CounterObj (ε κ : Type) where
  entries : List (κ × Nat)

/-- Well-formedness: every owned `Counter` reference points into the heap. -/
def CounterObj.WF (o : CounterObj ε κ) (h : PyHeap ε) : Prop :=
  ∀ p ∈ o.entries, p.2 < h.cells.length

/-- The multiset contents the counter's mapping observably holds at `cat`. -/
def CounterObj.valueAt [DecidableEq κ] (o : CounterObj ε κ) (h : PyHeap ε)
    (cat : κ) : Multiset ε :=
  match keyFind o.entries cat with
  | some r => h.read r
  | none => 0

/-- `__getitem__` at the reference level:
`self._err_ctrs_by_cat[cat].copy()`.  The `defaultdict` access vivifies an
absent category with a freshly allocated empty `Counter`; `.copy()` then
allocates a fresh `Counter` with the same contents and its reference is what
the caller receives. -/
def CounterObj.getItemRef [DecidableEq κ] (o : CounterObj ε κ) (h : PyHeap ε)
    (cat : κ) : Nat × PyHeap ε × CounterObj ε κ :=
  match keyFind o.entries cat with
  | some r =>
    let p := h.alloc (h.read r)
    (p.1, p.2, o)
  | none =>
    let p0 := h.alloc 0
    let p := p0.2.alloc (p0.2.read p0.1)
    (p.1, p.2, ⟨o.entries ++ [(cat, p0.1)]⟩)

/-- Helper for `items` at the reference level: walk the entries, allocating
one fresh copy per category. -/
def itemsRefsAux (h : PyHeap ε) : List (κ × Nat) → List (κ × Nat) × PyHeap ε
  | [] => ([], h)
  | p :: t =>
    let q := h.alloc (h.read p.2)
    let rest := itemsRefsAux q.2 t
    ((p.1, q.1) :: rest.1, rest.2)

/-- `items` at the reference level:
`[(cat, ctr.copy()) for cat, ctr in self._err_ctrs_by_cat.items()]`. -/
def CounterObj.itemsRefs (o : CounterObj ε κ) (h : PyHeap ε) :
    List (κ × Nat) × PyHeap ε :=
  itemsRefsAux h o.entries

theorem read_alloc_self (h : PyHeap ε) (m : Multiset ε) :
    (h.alloc m).2.read (h.alloc m).1 = m := by
  unfold PyHeap.alloc PyHeap.read
  simp only
  rw [List.getD_append_right _ _ _ _ (le_refl _), Nat.sub_self]
  rfl

theorem read_alloc_lt (h : PyHeap ε) (m : Multiset ε) {r : Nat}
    (hr : r < h.cells.length) : (h.alloc m).2.read r = h.read r := by
  unfold PyHeap.alloc PyHeap.read
  simp only
  rw [List.getD_append _ _ _ _ hr]

theorem read_write_ne (h : PyHeap ε) (r r' : Nat) (m : Multiset ε)
    (hne : r' ≠ r) : (h.write r m).read r' = h.read r' := by
  unfold PyHeap.write PyHeap.read
  simp only
  rw [List.getD_eq_getD_get?, List.getD_eq_getD_get?, List.get?_eq_getElem?,
    List.get?_eq_getElem?, List.getElem?_set_ne (fun he => hne he.symm)]

theorem length_write (h : PyHeap ε) (r : Nat) (m : Multiset ε) :
    (h.write r m).cells.length = h.cells.length := by
  unfold PyHeap.write
  simp

theorem valueAt_write_of_fresh [DecidableEq κ] (o : CounterObj ε κ)
    (h : PyHeap ε) (a : Nat) (m : Multiset ε)
    (hfresh : ∀ p ∈ o.entries, p.2 ≠ a) (k : κ) :
    o.valueAt (h.write a m) k = o.valueAt h k := by
  unfold CounterObj.valueAt
  cases hf : keyFind o.entries k with
  | none => rfl
  | some r =>
    exact read_write_ne h a r m (hfresh _ (keyFind_eq_some_mem hf))


theorem valueAt_of_keyFind_some [DecidableEq κ] {o : CounterObj ε κ} {k : κ}
    {r : Nat} (hf : keyFind o.entries k = some r) (h : PyHeap ε) :
    o.valueAt h k = h.read r := by
  unfold CounterObj.valueAt
  rw [hf]

theorem valueAt_of_keyFind_none [DecidableEq κ] {o : CounterObj ε κ} {k : κ}
    (hf : keyFind o.entries k = none) (h : PyHeap ε) :
    o.valueAt h k = 0 := by
  unfold CounterObj.valueAt
  rw [hf]

theorem read_mk_append_lt (l l' : List (Multiset ε)) {r : Nat}
    (hr : r < l.length) :
    (PyHeap.mk (l ++ l')).read r = (PyHeap.mk l).read r := by
  unfold PyHeap.read
  exact List.getD_append l l' 0 r hr

theorem read_mk_append_self (l : List (Multiset ε)) (m : Multiset ε) :
    (PyHeap.mk (l ++ [m])).read l.length = m := by
  unfold PyHeap.read
  rw [List.getD_append_right _ _ _ _ (le_refl _), Nat.sub_self]
  rfl

theorem getItemRef_some_char [DecidableEq κ] {o : CounterObj ε κ}
    {h : PyHeap ε} {cat : κ} {r : Nat} (hf : keyFind o.entries cat = some r) :
    o.getItemRef h cat =
      (h.cells.length, PyHeap.mk (h.cells ++ [h.read r]), o) := by
  unfold CounterObj.getItemRef
  rw [hf]
  rfl

theorem getItemRef_none_char [DecidableEq κ] {o : CounterObj ε κ}
    {h : PyHeap ε} {cat : κ} (hf : keyFind o.entries cat = none) :
    o.getItemRef h cat =
      (h.cells.length + 1,
       PyHeap.mk ((h.cells ++ [0]) ++ [(0 : Multiset ε)]),
       CounterObj.mk (o.entries ++ [(cat, h.cells.length)])) := by
  unfold CounterObj.getItemRef
  rw [hf]
  unfold PyHeap.alloc
  simp only [List.length_append, List.length_singleton]
  rw [show (PyHeap.mk (h.cells ++ [(0 : Multiset ε)])).read h.cells.length = 0
    from read_mk_append_self h.cells 0]

theorem getItemRef_spec [DecidableEq κ] (o : CounterObj ε κ) (h : PyHeap ε)
    (cat : κ) (hwf : o.WF h) :
    (o.getItemRef h cat).2.1.read (o.getItemRef h cat).1 = o.valueAt h cat ∧
    (∀ k, (o.getItemRef h cat).2.2.valueAt (o.getItemRef h cat).2.1 k =
      o.valueAt h k) ∧
    (o.getItemRef h cat).2.2.WF (o.getItemRef h cat).2.1 ∧
    (∀ p ∈ (o.getItemRef h cat).2.2.entries, p.2 ≠ (o.getItemRef h cat).1) := by
  cases hf : keyFind o.entries cat with
  | some r =>
    rw [getItemRef_some_char hf]
    refine ⟨?_, ?_, ?_, ?_⟩
    · rw [read_mk_append_self, valueAt_of_keyFind_some hf]
    · intro k
      cases hk : keyFind o.entries k with
      | none => rw [valueAt_of_keyFind_none hk, valueAt_of_keyFind_none hk]
      | some r' =>
        rw [valueAt_of_keyFind_some hk, valueAt_of_keyFind_some hk]
        exact read_mk_append_lt _ _ (hwf _ (keyFind_eq_some_mem hk))
    · intro p hp
      simp only [List.length_append, List.length_singleton]
      exact Nat.lt_succ_of_lt (hwf p hp)
    · intro p hp
      exact Nat.ne_of_lt (hwf p hp)
  | none =>
    rw [getItemRef_none_char hf]
    have hlen1 : (h.cells ++ [(0 : Multiset ε)]).length = h.cells.length + 1 := by
      simp
    refine ⟨?_, ?_, ?_, ?_⟩
    · rw [valueAt_of_keyFind_none hf, ← hlen1, read_mk_append_self]
    · intro k
      cases hk : keyFind o.entries k with
      | some r' =>
        have hk' : keyFind ((CounterObj.mk
            (o.entries ++ [(cat, h.cells.length)]) :
              CounterObj ε κ)).entries k = some r' :=
          keyFind_append_of_some hk
        rw [valueAt_of_keyFind_some hk', valueAt_of_keyFind_some hk]
        have hr' : r' < h.cells.length := hwf _ (keyFind_eq_some_mem hk)
        rw [read_mk_append_lt _ _ (by rw [hlen1]; omega),
          read_mk_append_lt _ _ hr']
      | none =>
        by_cases hkc : k = cat
        · subst hkc
          have hk' : keyFind ((CounterObj.mk
              (o.entries ++ [(k, h.cells.length)]) :
                CounterObj ε κ)).entries k =
              some h.cells.length := by
            rw [show ((CounterObj.mk
              (o.entries ++ [(k, h.cells.length)]) :
                CounterObj ε κ)).entries =
              o.entries ++ [(k, h.cells.length)] from rfl]
            rw [keyFind_append_of_none hk]
            simp [keyFind]
          rw [valueAt_of_keyFind_some hk', valueAt_of_keyFind_none hf,
            read_mk_append_lt _ _ (by rw [hlen1]; omega),
            read_mk_append_self]
        · have hk' : keyFind ((CounterObj.mk
              (o.entries ++ [(cat, h.cells.length)]) :
                CounterObj ε κ)).entries k = none := by
            rw [show ((CounterObj.mk
              (o.entries ++ [(cat, h.cells.length)]) :
                CounterObj ε κ)).entries =
              o.entries ++ [(cat, h.cells.length)] from rfl]
            rw [keyFind_append_of_none hk]
            simp [keyFind, hkc]
          rw [valueAt_of_keyFind_none hk', valueAt_of_keyFind_none hk]
    · intro p hp
      simp only [List.length_append, List.length_singleton]
      rcases List.mem_append.mp hp with hp | hp
      · have := hwf p hp
        omega
      · rw [List.mem_singleton] at hp
        subst hp
        simp only
        omega
    · intro p hp
      rcases List.mem_append.mp hp with hp | hp
      · have := hwf p hp
        omega
      · rw [List.mem_singleton] at hp
        subst hp
        simp only
        omega

theorem itemsRefsAux_len_le (h : PyHeap ε) (l : List (κ × Nat)) :
    h.cells.length ≤ (itemsRefsAux h l).2.cells.length := by
  induction l generalizing h with
  | nil => exact le_refl _
  | cons p t ih =>
    unfold itemsRefsAux
    simp only
    refine le_trans ?_ (ih (h.alloc (h.read p.2)).2)
    unfold PyHeap.alloc
    simp

theorem itemsRefsAux_read_lt (h : PyHeap ε) (l : List (κ × Nat)) {r : Nat}
    (hr : r < h.cells.length) : (itemsRefsAux h l).2.read r = h.read r := by
  induction l generalizing h with
  | nil => rfl
  | cons p t ih =>
    unfold itemsRefsAux
    simp only
    rw [ih _ (by
      refine lt_of_lt_of_le hr ?_
      unfold PyHeap.alloc
      simp), read_alloc_lt _ _ hr]

theorem itemsRefsAux_addrs_ge (h : PyHeap ε) (l : List (κ × Nat)) :
    ∀ p ∈ (itemsRefsAux h l).1, h.cells.length ≤ p.2 := by
  induction l generalizing h with
  | nil => intro p hp; exact absurd hp (List.not_mem_nil p)
  | cons q t ih =>
    intro p hp
    unfold itemsRefsAux at hp
    simp only [List.mem_cons] at hp
    rcases hp with rfl | hp
    · exact le_refl _
    · refine le_trans ?_ (ih (h.alloc (h.read q.2)).2 p hp)
      unfold PyHeap.alloc
      simp

end HeapModel

/-- C5: the multiset returned by indexing a counter (`__getitem__` /
`item_at`) or enumerated by `items()` is a copy: mutating it (a heap write
at the returned reference) leaves the counter's observable per-category
contents unchanged, and a subsequent indexing call at the same category
returns the same contents as before the mutation. -/
theorem C5_copy_isolation {ε κ : Type} [DecidableEq κ] (h : PyHeap ε)
    (o : CounterObj ε κ) (cat : κ) (m : Multiset ε) (hwf : o.WF h) :
    (∀ k, (o.getItemRef h cat).2.2.valueAt
        ((o.getItemRef h cat).2.1.write (o.getItemRef h cat).1 m) k =
      o.valueAt h k) ∧
    ((o.getItemRef h cat).2.2.getItemRef
        ((o.getItemRef h cat).2.1.write (o.getItemRef h cat).1 m) cat).2.1.read
      ((o.getItemRef h cat).2.2.getItemRef
        ((o.getItemRef h cat).2.1.write (o.getItemRef h cat).1 m) cat).1 =
      o.valueAt h cat ∧
    (∀ p ∈ (o.itemsRefs h).1, ∀ k,
      o.valueAt ((o.itemsRefs h).2.write p.2 m) k = o.valueAt h k) := by
  obtain ⟨hread, hobs, hwf1, hfresh⟩ := getItemRef_spec o h cat hwf
  have hmut : ∀ k, (o.getItemRef h cat).2.2.valueAt
      ((o.getItemRef h cat).2.1.write (o.getItemRef h cat).1 m) k =
      o.valueAt h k := by
    intro k
    rw [valueAt_write_of_fresh _ _ _ _ hfresh k]
    exact hobs k
  refine ⟨hmut, ?_, ?_⟩
  · have hwf2 : (o.getItemRef h cat).2.2.WF
        ((o.getItemRef h cat).2.1.write (o.getItemRef h cat).1 m) := by
      intro p hp
      rw [length_write]
      exact hwf1 p hp
    obtain ⟨hread2, _, _, _⟩ := getItemRef_spec (o.getItemRef h cat).2.2
      ((o.getItemRef h cat).2.1.write (o.getItemRef h cat).1 m) cat hwf2
    rw [hread2]
    exact hmut cat
  · intro p hp k
    have hge : h.cells.length ≤ p.2 := itemsRefsAux_addrs_ge h o.entries p hp
    unfold CounterObj.itemsRefs
    cases hk : keyFind o.entries k with
    | none => rw [valueAt_of_keyFind_none hk, valueAt_of_keyFind_none hk]
    | some r =>
      have hr : r < h.cells.length := hwf _ (keyFind_eq_some_mem hk)
      have hne : r ≠ p.2 := by omega
      rw [valueAt_of_keyFind_some hk, valueAt_of_keyFind_some hk,
        read_write_ne _ _ _ _ hne, itemsRefsAux_read_lt h o.entries hr]

/-- A one-category counter object used to witness copy isolation: category
`"c"` owns the `Counter` at reference 0. -/
def c5Obj : CounterObj String String :=
  ⟨[("c", 0)]⟩

/-- The heap for the copy-isolation witness: the single `Counter` object at
reference 0 holds one occurrence of the error `"e"`. -/
def c5Heap : PyHeap String :=
  ⟨[{"e"}]⟩

/-- C5 witness: mutating the copy returned by indexing `c5Obj` at `"c"`
leaves the counter's contents at `"c"` unchanged. -/
theorem C5_witness :
    c5Obj.WF c5Heap ∧
    (c5Obj.getItemRef c5Heap "c").2.2.valueAt
        ((c5Obj.getItemRef c5Heap "c").2.1.write
          (c5Obj.getItemRef c5Heap "c").1 {"e", "e"}) "c" =
      c5Obj.valueAt c5Heap "c" :=
  ⟨by unfold CounterObj.WF c5Obj c5Heap; decide,
    (C5_copy_isolation c5Heap c5Obj "c" {"e", "e"}
      (by unfold CounterObj.WF c5Obj c5Heap; decide)).1 "c"⟩

section Reports

/-- The fields of a Pydantic validation error `dict` that the diff pipeline
reads: `err["type"]`, `err["msg"]` and `err["loc"]`. -/
structure PydanticErrDict where
  type : String
  msg : String
  loc : List (String ⊕ Int)
deriving DecidableEq

/-- Modelled from the spec: the dandiset-level per-entity report object.
This snapshot's `models.py` lacks the `jsonschema_validation_errs` field
that `_dandiset_validation_diff_reports` reads (the module version defining
`JsonschemaValidationErrorModel`, which `tools/jsonschema.py` imports, is
not in the tree), so the report follows the spec's report-loader interface:
"per-entity report objects exposing at minimum an identifier, a version, an
optional asset index, and the two error-list fields".  The jsonschema error
record type stays abstract as the parameter `σ`. -/
structure DandisetValidationReport (σ : Type) where
  dandiset_identifier : String
  dandiset_version : String
  pydantic_validation_errs : List PydanticErrDict
  jsonschema_validation_errs : List σ
deriving DecidableEq

/-- Modelled from the spec: the asset-level per-entity report object.  This
snapshot's `models.py` lacks the `asset_idx` field ("the index of the asset
in the containing JSON array in `assets.jsonld`", per the comment on
`_AssetValidationDiffReport`, the spec's "index-within-containing-array")
and the `jsonschema_validation_errs` field, both read by
`diff_manifests_reports.py`; they are modelled from the spec's entity key
`(dandisetIdentifier, version, assetIndex)` and report-loader interface. -/
structure AssetValidationReport (σ : Type) where
  dandiset_identifier : String
  dandiset_version : String
  asset_id : Option String
  asset_path : Option String
  asset_idx : Nat
  pydantic_validation_errs : List PydanticErrDict
  jsonschema_validation_errs : List σ
deriving DecidableEq

/-- `pydantic_err_rep`: the tuple
`(err["type"], err["msg"], tuple(err["loc"]), path)`. -/
def pydantic_err_rep (err : PydanticErrDict) (path : List String) :
    PydanticErrRep :=
  ⟨err.type, err.msg, err.loc, path⟩

/-- The nested mapping `DandisetValidationReportsType`:
dandiset identifier → version → report. -/
abbrev DandisetValidationReports (σ : Type) : Type :=
  List (String × List (String × DandisetValidationReport σ))

/-- The lookup `reports.get(id_, {}).get(ver, None)` used by
`_dandiset_validation_diff_reports` to resolve an entry in one collection. -/
def reportAt {σ : Type} (reports : DandisetValidationReports σ)
    (id_ ver : String) : Option (DandisetValidationReport σ) :=
  match keyFind reports id_ with
  | none => none
  | some inner => keyFind inner ver

/-- Modelled from the spec: `get_validation_reports_entries` (imported from
the `tools` package root, which is not in the tree) "determines the set of
entity keys appearing in either collection"; for dandiset-level reports the
entity key is `(identifier, version)`. -/
def get_validation_reports_entries {σ : Type}
    (reports : DandisetValidationReports σ) : List (String × String) :=
  reports.flatMap (fun p => p.2.map (fun q => (p.1, q.1)))

/-- Lexicographic comparison of entity keys: Python `sorted` on pairs of
strings. -/
def entryLE (a b : String × String) : Prop :=
  a.1 < b.1 ∨ (a.1 = b.1 ∧ a.2 ≤ b.2)

instance : DecidableRel entryLE := fun a b => by
  unfold entryLE
  exact inferInstance

/-- The entry list
`sorted(get_validation_reports_entries(reports1) | ...(reports2))`. -/
def sortedEntries {σ : Type} (r1 r2 : DandisetValidationReports σ) :
    List (String × String) :=
  ((get_validation_reports_entries r1 ++
      get_validation_reports_entries r2).dedup).insertionSort entryLE

/-- The resolution output of `_dandiset_validation_diff_reports` for one
entry: the entity key and the two resolved error lists of each kind.  The
`*_errs_diff` fields of `_DandisetValidationDiffReport` are produced by the
external `jsondiff` library and are outside the embedded core. -/
structure DandisetValidationDiffReport (σ : Type) where
  dandiset_identifier : String
  dandiset_version : String
  pydantic_validation_errs1 : List PydanticErrDict
  pydantic_validation_errs2 : List PydanticErrDict
  jsonschema_validation_errs1 : List σ
  jsonschema_validation_errs2 : List σ
deriving DecidableEq

/-- The entry-resolution loop of `_dandiset_validation_diff_reports`: for
every entity key of either collection, resolve each side to its report's
error lists or to empty lists when the entity is absent, skipping entries
whose four error lists are all empty. -/
def dandiset_validation_diff_reports {σ : Type}
    (reports1 reports2 : DandisetValidationReports σ) :
    List (DandisetValidationDiffReport σ) :=
  (sortedEntries reports1 reports2).filterMap (fun e =>
    let r1 := reportAt reports1 e.1 e.2
    let r2 := reportAt reports2 e.1 e.2
    let p1 := match r1 with
      | some r => r.pydantic_validation_errs
      | none => []
    let j1 := match r1 with
      | some r => r.jsonschema_validation_errs
      | none => []
    let p2 := match r2 with
      | some r => r.pydantic_validation_errs
      | none => []
    let j2 := match r2 with
      | some r => r.jsonschema_validation_errs
      | none => []
    if p1.isEmpty && p2.isEmpty && j1.isEmpty && j2.isEmpty then none
    else some ⟨e.1, e.2, p1, p2, j1, j2⟩)

theorem mem_sortedEntries_of_reportAt_some {σ : Type}
    {reports1 : DandisetValidationReports σ} {id_ ver : String}
    {r : DandisetValidationReport σ} (h : reportAt reports1 id_ ver = some r)
    (reports2 : DandisetValidationReports σ) :
    (id_, ver) ∈ sortedEntries reports1 reports2 := by
  unfold reportAt at h
  rcases hout : keyFind reports1 id_ with _ | inner
  · rw [hout] at h
    exact Option.noConfusion h
  · rw [hout] at h
    have hmem1 : (id_, inner) ∈ reports1 := keyFind_eq_some_mem hout
    have hmem2 : (ver, r) ∈ inner := keyFind_eq_some_mem h
    have hmem : (id_, ver) ∈ get_validation_reports_entries reports1 := by
      unfold get_validation_reports_entries
      rw [List.mem_flatMap]
      exact ⟨(id_, inner), hmem1, List.mem_map.mpr ⟨(ver, r), hmem2, rfl⟩⟩
    unfold sortedEntries
    rw [List.Perm.mem_iff (List.perm_insertionSort entryLE _), List.mem_dedup,
      List.mem_append]
    exact Or.inl hmem

theorem mem_sortedEntries_of_reportAt_some_right {σ : Type}
    {reports2 : DandisetValidationReports σ} {id_ ver : String}
    {r : DandisetValidationReport σ} (h : reportAt reports2 id_ ver = some r)
    (reports1 : DandisetValidationReports σ) :
    (id_, ver) ∈ sortedEntries reports1 reports2 := by
  unfold reportAt at h
  rcases hout : keyFind reports2 id_ with _ | inner
  · rw [hout] at h
    exact Option.noConfusion h
  · rw [hout] at h
    have hmem1 : (id_, inner) ∈ reports2 := keyFind_eq_some_mem hout
    have hmem2 : (ver, r) ∈ inner := keyFind_eq_some_mem h
    have hmem : (id_, ver) ∈ get_validation_reports_entries reports2 := by
      unfold get_validation_reports_entries
      rw [List.mem_flatMap]
      exact ⟨(id_, inner), hmem1, List.mem_map.mpr ⟨(ver, r), hmem2, rfl⟩⟩
    unfold sortedEntries
    rw [List.Perm.mem_iff (List.perm_insertionSort entryLE _), List.mem_dedup,
      List.mem_append]
    exact Or.inr hmem

end Reports

/-- C8: an entity key present in only one report collection resolves the
missing side to empty error lists without an exception, so its diff-report
entry carries the present side's errors and empty lists for the other side;
feeding the two sides into the counter/diff pipeline then yields, for every
category, the entity's errors entirely as `removed` (with `gained` empty)
when the entity is present only in collection 1, and entirely as `gained`
(with `removed` empty) when it is present only in collection 2. -/
theorem C8_missing_entity_resolves_empty {σ : Type}
    (reports1 reports2 : DandisetValidationReports σ) (id_ ver : String)
    (r : DandisetValidationReport σ)
    (hne : r.pydantic_validation_errs ≠ []) :
    (reportAt reports1 id_ ver = some r → reportAt reports2 id_ ver = none →
      DandisetValidationDiffReport.mk id_ ver r.pydantic_validation_errs []
          r.jsonschema_validation_errs [] ∈
        dandiset_validation_diff_reports reports1 reports2 ∧
      (∀ cat, keyFind (validation_err_diff
          ((ValidationErrCounter.init pydantic_err_categorizer).count
            (r.pydantic_validation_errs.map
              (fun e => pydantic_err_rep e [id_, ver])))
          (ValidationErrCounter.init pydantic_err_categorizer)).1 cat =
        if errsIn pydantic_err_categorizer
            (r.pydantic_validation_errs.map
              (fun e => pydantic_err_rep e [id_, ver])) cat = 0 then none
        else some (errsIn pydantic_err_categorizer
            (r.pydantic_validation_errs.map
              (fun e => pydantic_err_rep e [id_, ver])) cat, 0))) ∧
    (reportAt reports2 id_ ver = some r → reportAt reports1 id_ ver = none →
      DandisetValidationDiffReport.mk id_ ver [] r.pydantic_validation_errs
          [] r.jsonschema_validation_errs ∈
        dandiset_validation_diff_reports reports1 reports2 ∧
      (∀ cat, keyFind (validation_err_diff
          (ValidationErrCounter.init pydantic_err_categorizer)
          ((ValidationErrCounter.init pydantic_err_categorizer).count
            (r.pydantic_validation_errs.map
              (fun e => pydantic_err_rep e [id_, ver])))).1 cat =
        if errsIn pydantic_err_categorizer
            (r.pydantic_validation_errs.map
              (fun e => pydantic_err_rep e [id_, ver])) cat = 0 then none
        else some (0, errsIn pydantic_err_categorizer
            (r.pydantic_validation_errs.map
              (fun e => pydantic_err_rep e [id_, ver])) cat))) := by
  have hempty : r.pydantic_validation_errs.isEmpty = false := by
    cases he : r.pydantic_validation_errs with
    | nil => exact absurd he hne
    | cons x t => rfl
  have hvcount : ∀ cat,
      ((ValidationErrCounter.init pydantic_err_categorizer).count
        (r.pydantic_validation_errs.map
          (fun e => pydantic_err_rep e [id_, ver]))).valueAt cat =
      errsIn pydantic_err_categorizer
        (r.pydantic_validation_errs.map
          (fun e => pydantic_err_rep e [id_, ver])) cat := by
    intro cat
    rw [count_valueAt]
    show (0 : Multiset PydanticErrRep) + _ = _
    rw [zero_add]
    rfl
  have hvinit : ∀ cat,
      ((ValidationErrCounter.init pydantic_err_categorizer :
        ValidationErrCounter PydanticErrRep
          (String × String × List String))).valueAt cat = 0 := fun _ => rfl
  constructor
  · intro h1 h2
    constructor
    · refine List.mem_filterMap.mpr
        ⟨(id_, ver), mem_sortedEntries_of_reportAt_some h1 reports2, ?_⟩
      simp only [h1, h2, hempty, Bool.false_and, Bool.if_false_left]
      simp
    · intro cat
      rw [validation_err_diff_keyFind, hvcount cat, hvinit cat, tsub_zero,
        zero_tsub]
  · intro h2 h1
    constructor
    · refine List.mem_filterMap.mpr
        ⟨(id_, ver), mem_sortedEntries_of_reportAt_some_right h2 reports1, ?_⟩
      simp only [h1, h2, hempty, Bool.false_and, Bool.and_false,
        Bool.if_false_left]
      simp
    · intro cat
      rw [validation_err_diff_keyFind, hvcount cat, hvinit cat, tsub_zero,
        zero_tsub]
      by_cases h0 : errsIn pydantic_err_categorizer
          (r.pydantic_validation_errs.map
            (fun e => pydantic_err_rep e [id_, ver])) cat = 0
      · rw [if_pos h0.symm, if_pos h0]
      · rw [if_neg (fun he => h0 he.symm), if_neg h0]

/-- A dandiset report with two Pydantic errors, present only in the first
collection of the C8 witness. -/
def c8Report : DandisetValidationReport String :=
  ⟨"000001", "draft",
    [⟨"T", "m", [Sum.inl "a"]⟩, ⟨"T2", "m2", [Sum.inl "b"]⟩], []⟩

/-- The first report collection of the C8 witness: it holds `c8Report` at
entity `("000001", "draft")`. -/
def c8Reports1 : DandisetValidationReports String :=
  [("000001", [("draft", c8Report)])]

/-- The second report collection of the C8 witness: empty, so the entity is
present only on the first side. -/
def c8Reports2 : DandisetValidationReports String :=
  []

/-- C8 witness: the entity present only in one collection resolves to its
two errors against empty lists in both diff directions — with the populated
collection first, the diff at its category is `(both errors, empty)`; with
the collections swapped, it is `(empty, both errors)`. -/
theorem C8_witness :
    (reportAt c8Reports1 "000001" "draft" = some c8Report ∧
      reportAt c8Reports2 "000001" "draft" = none ∧
      c8Report.pydantic_validation_errs ≠ []) ∧
    (DandisetValidationDiffReport.mk "000001" "draft"
        c8Report.pydantic_validation_errs []
        c8Report.jsonschema_validation_errs [] ∈
      dandiset_validation_diff_reports c8Reports1 c8Reports2 ∧
      keyFind (validation_err_diff
          ((ValidationErrCounter.init pydantic_err_categorizer).count
            (c8Report.pydantic_validation_errs.map
              (fun e => pydantic_err_rep e ["000001", "draft"])))
          (ValidationErrCounter.init pydantic_err_categorizer)).1
        ("T", "m", ["a"]) =
      if errsIn pydantic_err_categorizer
          (c8Report.pydantic_validation_errs.map
            (fun e => pydantic_err_rep e ["000001", "draft"]))
          ("T", "m", ["a"]) = 0 then none
      else some (errsIn pydantic_err_categorizer
          (c8Report.pydantic_validation_errs.map
            (fun e => pydantic_err_rep e ["000001", "draft"]))
          ("T", "m", ["a"]), 0)) ∧
    (DandisetValidationDiffReport.mk "000001" "draft" []
        c8Report.pydantic_validation_errs []
        c8Report.jsonschema_validation_errs ∈
      dandiset_validation_diff_reports c8Reports2 c8Reports1 ∧
      keyFind (validation_err_diff
          (ValidationErrCounter.init pydantic_err_categorizer)
          ((ValidationErrCounter.init pydantic_err_categorizer).count
            (c8Report.pydantic_validation_errs.map
              (fun e => pydantic_err_rep e ["000001", "draft"])))).1
        ("T", "m", ["a"]) =
      if errsIn pydantic_err_categorizer
          (c8Report.pydantic_validation_errs.map
            (fun e => pydantic_err_rep e ["000001", "draft"]))
          ("T", "m", ["a"]) = 0 then none
      else some (0, errsIn pydantic_err_categorizer
          (c8Report.pydantic_validation_errs.map
            (fun e => pydantic_err_rep e ["000001", "draft"]))
          ("T", "m", ["a"]))) :=
  ⟨⟨by decide, by decide, by decide⟩,
    ⟨((C8_missing_entity_resolves_empty c8Reports1 c8Reports2 "000001"
          "draft" c8Report (by decide)).1 (by decide) (by decide)).1,
      ((C8_missing_entity_resolves_empty c8Reports1 c8Reports2 "000001"
          "draft" c8Report (by decide)).1 (by decide) (by decide)).2
        ("T", "m", ["a"])⟩,
    ⟨((C8_missing_entity_resolves_empty c8Reports2 c8Reports1 "000001"
          "draft" c8Report (by decide)).2 (by decide) (by decide)).1,
      ((C8_missing_entity_resolves_empty c8Reports2 c8Reports1 "000001"
          "draft" c8Report (by decide)).2 (by decide) (by decide)).2
        ("T", "m", ["a"])⟩⟩

section KeyReports

/-- The union of report kinds `_key_reports` dispatches on via
`isinstance`. -/
inductive KeyedReport (σ : Type) where
  | dandiset (r : DandisetValidationReport σ)
  | asset (r : AssetValidationReport σ)
deriving DecidableEq

/-- Python attribute access `str(getattr(r, p))` for the part names
`_key_reports` uses.  Accessing an attribute the object lacks raises
`AttributeError`, modelled as `Except.error`; `asset_idx` (the spec-modelled
field of asset reports) renders as `str` of the index. -/
def reportGetattr {σ : Type} (r : KeyedReport σ) (attr : String) :
    Except String String :=
  match r with
  | .dandiset d =>
    if attr = "dandiset_identifier" then .ok d.dandiset_identifier
    else if attr = "dandiset_version" then .ok d.dandiset_version
    else .error ("AttributeError: " ++ attr)
  | .asset a =>
    if attr = "dandiset_identifier" then .ok a.dandiset_identifier
    else if attr = "dandiset_version" then .ok a.dandiset_version
    else if attr = "asset_idx" then .ok (toString a.asset_idx)
    else .error ("AttributeError: " ++ attr)

/-- `_key_reports`: dispatch on the first report's kind to pick the key
parts, then key every report by
`Path(*(str(getattr(r, p)) for p in parts))`, a path modelled as its list
of parts.  The result keeps the dict comprehension's insertion sequence.
The `ValueError` branch for unsupported report types is unreachable for the
two embedded kinds. -/
def key_reports {σ : Type} (reports : List (KeyedReport σ)) :
    Except String (List (List String × KeyedReport σ)) :=
  match reports with
  | [] => .ok []
  | r0 :: _ =>
    let parts : List String :=
      match r0 with
      | .dandiset _ => ["dandiset_identifier", "dandiset_version"]
      | .asset _ => ["dandiset_identifier", "dandiset_version", "asset_idx"]
    reports.mapM (fun r => do
      let key ← parts.mapM (reportGetattr r)
      pure (key, r))

/-- The composite identity `_key_reports` assigns to an asset report:
dandiset identifier, version, and the asset's index in the containing
array. -/
def assetCompositeKey {σ : Type} (r : AssetValidationReport σ) : List String :=
  [r.dandiset_identifier, r.dandiset_version, toString r.asset_idx]

theorem mapM_ok_of_forall {α β : Type} (f : α → Except String β) (g : α → β)
    (l : List α) (h : ∀ x ∈ l, f x = .ok (g x)) :
    l.mapM f = .ok (l.map g) := by
  induction l with
  | nil => rfl
  | cons x t ih =>
    rw [List.mapM_cons, h x (List.mem_cons_self x t),
      ih (fun y hy => h y (List.mem_cons_of_mem x hy))]
    rfl

theorem parts_mapM_asset {σ : Type} (a : AssetValidationReport σ) :
    ["dandiset_identifier", "dandiset_version", "asset_idx"].mapM
      (reportGetattr (KeyedReport.asset a)) =
      Except.ok (assetCompositeKey a) := by
  rw [List.mapM_cons, List.mapM_cons, List.mapM_cons, List.mapM_nil]
  simp only [reportGetattr, assetCompositeKey, String.reduceEq, if_true,
    if_false, reduceIte]
  rfl

end KeyReports

/-- C9: for a non-empty collection of asset-level validation reports,
`_key_reports` keys each report, positionally, by its full composite
identity — dandiset identifier, version, and the index of the asset within
the containing array — raising no exception. -/
theorem C9_key_reports_asset_composite {σ : Type}
    (rs : List (AssetValidationReport σ)) (hne : rs ≠ []) :
    key_reports (rs.map KeyedReport.asset) =
      Except.ok (rs.map (fun r =>
        (assetCompositeKey r, KeyedReport.asset r))) := by
  cases rs with
  | nil => exact absurd rfl hne
  | cons r0 t =>
    have hstep : key_reports
        (KeyedReport.asset r0 :: t.map KeyedReport.asset) =
        (KeyedReport.asset r0 :: t.map KeyedReport.asset).mapM (fun r => do
          let key ← ["dandiset_identifier", "dandiset_version",
            "asset_idx"].mapM (reportGetattr r)
          pure (key, r)) := rfl
    rw [show (r0 :: t).map KeyedReport.asset =
      KeyedReport.asset r0 :: t.map KeyedReport.asset from rfl, hstep,
      mapM_ok_of_forall _ (fun kr =>
        ((match kr with
          | KeyedReport.asset r => assetCompositeKey r
          | KeyedReport.dandiset _ => []), kr)) _ ?_]
    · rw [show (KeyedReport.asset r0 :: t.map KeyedReport.asset).map
          (fun kr => ((match kr with
            | KeyedReport.asset r => assetCompositeKey r
            | KeyedReport.dandiset _ => []), kr)) =
          (assetCompositeKey r0, KeyedReport.asset r0) ::
            (t.map KeyedReport.asset).map (fun kr => ((match kr with
              | KeyedReport.asset r => assetCompositeKey r
              | KeyedReport.dandiset _ => []), kr)) from rfl,
        List.map_map]
      rfl
    · intro x hx
      have hasset : ∃ r : AssetValidationReport σ, x = KeyedReport.asset r := by
        rcases List.mem_cons.mp hx with rfl | hx'
        · exact ⟨r0, rfl⟩
        · rcases List.mem_map.mp hx' with ⟨r, _, rfl⟩
          exact ⟨r, rfl⟩
      rcases hasset with ⟨r, rfl⟩
      rw [show ((do
          let key ← ["dandiset_identifier", "dandiset_version",
            "asset_idx"].mapM (reportGetattr (KeyedReport.asset r))
          pure (key, KeyedReport.asset r)) :
            Except String (List String × KeyedReport σ)) =
        ((["dandiset_identifier", "dandiset_version", "asset_idx"].mapM
          (reportGetattr (KeyedReport.asset r))).bind
            (fun key => Except.ok (key, KeyedReport.asset r))) from rfl,
        parts_mapM_asset]
      rfl

/-- An asset-level report of the C9 witness: asset index 0 of dandiset
`000001` at version `draft`. -/
def c9Asset1 : AssetValidationReport String :=
  ⟨"000001", "draft", none, none, 0, [], []⟩

/-- Another asset-level report of the C9 witness: asset index 1 of the same
dandiset version. -/
def c9Asset2 : AssetValidationReport String :=
  ⟨"000001", "draft", some "aid", some "apath", 1, [], []⟩

/-- C9 witness: keying the two-report collection yields the two composite
identities `000001/draft/0` and `000001/draft/1`, in order. -/
theorem C9_witness :
    ([c9Asset1, c9Asset2] ≠ ([] : List (AssetValidationReport String))) ∧
    key_reports ([c9Asset1, c9Asset2].map KeyedReport.asset) =
      Except.ok ([c9Asset1, c9Asset2].map (fun r =>
        (assetCompositeKey r, KeyedReport.asset r))) :=
  ⟨by decide,
    C9_key_reports_asset_composite [c9Asset1, c9Asset2] (by decide)⟩
